import Mathlib

/-!
Verification of the synthesis-and-sequencing pipeline of the
`sound_experiments` repository.

The development shallowly embeds the Python sources:
  * `src/music_tools.py`   (`NoteFrequencies.get_frequency`)
  * `src/instruments/base_instrument.py`
      (`BaseInstrument.apply_ads_envelope`, `BaseInstrument.get_waveform`)
  * `src/mixing.py`
      (`AudioMixer`, `SongPlayer`, `MultiTrackMixer.mix_tracks`)

Audio buffers (numpy float arrays) are embedded as `List ℚ` and float
arithmetic as exact rational arithmetic; note frequencies, which involve
the irrational ratio 2^(1/12), live in `ℝ`.  The instrument pipeline never
inspects a frequency value (it only tests emptiness and forwards the list
to the raw-wave generator), so the pipeline definitions are parametric in
the frequency representation `F`.
-/

/-- Python `int(q)` on a float: truncation toward zero, embedded with
`Int.tdiv` (truncated division), which agrees with `int()` on every
rational, including negative ones such as `int(-2.8) = -2`. -/
def pyInt (q : ℚ) : ℤ :=
  q.num.tdiv (q.den : ℤ)

/-- Number of samples allocated for `duration_s` seconds at `sample_rate`:
`int(sample_rate * duration_s)` in the source. -/
def numSamples (sample_rate : ℕ) (duration_s : ℚ) : ℕ :=
  (pyInt ((sample_rate : ℚ) * duration_s)).toNat

/-- Embedding of `np.linspace(a, b, n)` (endpoint included):
`n = 0` gives `[]`, `n = 1` gives `[a]`, otherwise sample `i` is
`a + (b - a) * i / (n - 1)`. -/
def linspace (a b : ℚ) (n : ℕ) : List ℚ :=
  if n ≤ 1 then List.replicate n a
  else (List.range n).map (fun i : ℕ => a + (b - a) * (i : ℚ) / ((n : ℚ) - 1))

/-- Embedding of `np.linspace(0., duration_s, num_samples, endpoint=False)`:
sample `i` is `duration_s * i / n`. -/
def timeAxis (duration_s : ℚ) (n : ℕ) : List ℚ :=
  (List.range n).map (fun i : ℕ => duration_s * (i : ℚ) / (n : ℚ))

/-- Value of `np.max(np.abs(buffer))` on a non-empty buffer, totalized
with value `0` on the empty buffer.  numpy itself raises `ValueError` on
a zero-size reduction; `npMaxAbs` below models that fallibility, and
`get_waveform?` uses it where the pipeline can actually reach the raising
call. -/
def peakAbs (l : List ℚ) : ℚ :=
  l.foldr (fun x m => max |x| m) 0

/-- Embedding of `np.max(np.abs(buffer))` as the source evaluates it:
`none` models the `ValueError` numpy raises on a zero-size reduction. -/
def npMaxAbs (l : List ℚ) : Option ℚ :=
  if l.isEmpty then none else some (peakAbs l)

/-- Embedding of `np.clip(x, 0.0, 1.0)`. -/
def clamp01 (x : ℚ) : ℚ :=
  min 1 (max 0 x)

/-- Embedding of `np.clip(x, -1.0, 1.0)` applied samplewise. -/
def clipSample (x : ℚ) : ℚ :=
  min 1 (max (-1) x)

/-- Volume clamp `max(0.0, volume)` from `MultiTrackMixer.mix_tracks`. -/
def clampVolume (v : ℚ) : ℚ :=
  max 0 v

/-! ## Note-name parsing (`src/music_tools.py`) -/

/-- Character class `[A-G]` of the note regex. -/
def isNoteLetter (c : Char) : Bool :=
  'A' ≤ c && c ≤ 'G'

/-- Character class `[#b]` of the note regex. -/
def isAccidentalChar (c : Char) : Bool :=
  c = '#' || c = 'b'

/-- Character class `\d` of the note regex. -/
def isDigitChar (c : Char) : Bool :=
  '0' ≤ c && c ≤ '9'

/-- Numeric value of a digit character. -/
def digitVal (c : Char) : ℕ :=
  c.toNat - '0'.toNat

/-- Whitespace characters removed by Python `str.strip()` (the ones that can
occur in note-name strings). -/
def isStripChar (c : Char) : Bool :=
  c = ' ' || c = '\t' || c = '\n' || c = '\r'

/-- Embedding of Python `str.strip()` on the character list of a string. -/
def pyStrip (l : List Char) : List Char :=
  ((l.dropWhile isStripChar).reverse.dropWhile isStripChar).reverse

/-- Embedding of `re.compile(r'([A-G])([#b]?)(\d)').match l`: an anchored
match at the start of the character list, returning the three groups
(letter, optional accidental, octave digit) and ignoring trailing
characters.  The greedy optional accidental backtracks: if the character
after the accidental is not a digit, the accidental position itself must
be a digit for the match to succeed. -/
def regexMatch (l : List Char) : Option (Char × Option Char × Char) :=
  match l with
  | c :: a :: d :: _ =>
    if isNoteLetter c then
      if isAccidentalChar a && isDigitChar d then some (c, some a, d)
      else if isDigitChar a then some (c, none, a)
      else none
    else none
  | [c, a] =>
    if isNoteLetter c && isDigitChar a then some (c, none, a) else none
  | _ => none

/-- Embedding of the `note_map` dictionary of `NoteFrequencies`, keyed by
the letter and optional accidental (the source keys the dictionary by the
concatenated string `note_letter + accidental`).  The spellings `E#`,
`Fb`, `B#` and `Cb` are absent, exactly as in the source. -/
def note_map (c : Char) (a : Option Char) : Option ℕ :=
  match c, a with
  | 'C', none => some 0
  | 'C', some '#' => some 1
  | 'D', some 'b' => some 1
  | 'D', none => some 2
  | 'D', some '#' => some 3
  | 'E', some 'b' => some 3
  | 'E', none => some 4
  | 'F', none => some 5
  | 'F', some '#' => some 6
  | 'G', some 'b' => some 6
  | 'G', none => some 7
  | 'G', some '#' => some 8
  | 'A', some 'b' => some 8
  | 'A', none => some 9
  | 'A', some '#' => some 10
  | 'B', some 'b' => some 10
  | 'B', none => some 11
  | _, _ => none

/-- Reference semitone index of A4: `note_map['A'] + 4 * 12 = 57`. -/
def semitones_a4 : ℕ :=
  9 + 4 * 12

/-- Absolute semitone index (`pitch_class + 12 * octave`, the source's
`target_semitone_num`) computed by `NoteFrequencies.get_frequency` from a
stripped character list, or `none` on either failure path (regex mismatch
or `KeyError` in the note map). -/
def noteSemitoneCore (l : List Char) : Option ℕ :=
  (regexMatch l).bind fun g =>
    (note_map g.1 g.2.1).map fun pc => pc + 12 * digitVal g.2.2

/-- Absolute semitone index of a note-name string, after `strip()`. -/
def noteSemitone (s : String) : Option ℕ :=
  noteSemitoneCore (pyStrip s.data)

/-- The equal-temperament semitone ratio `2**(1/12)`. -/
noncomputable def twelfthRootOfTwo : ℝ :=
  (2 : ℝ) ^ ((1 : ℝ) / 12)

/-- Frequency of an absolute semitone index:
`a4 * twelfth_root_of_2 ** (idx - semitones_a4)`. -/
noncomputable def freqOfSemitone (a4 : ℝ) (idx : ℕ) : ℝ :=
  a4 * twelfthRootOfTwo ^ ((idx : ℤ) - (semitones_a4 : ℤ))

/-- Embedding of `NoteFrequencies.get_frequency`: `none` models the
`return None` error paths (which print a message and do not raise). -/
noncomputable def get_frequency (a4 : ℝ) (s : String) : Option ℝ :=
  (noteSemitone s).map (freqOfSemitone a4)

/-! ## Instrument pipeline (`src/instruments/base_instrument.py`) -/

/-- An instrument: its ADS envelope parameters (held on `self` in
`BaseInstrument.__init__`) together with the subclass override
`_generate_wave(t, frequencies, sample_rate)`.  The pipeline forwards the
frequency list to the generator without inspecting its values, so the
frequency representation `F` is a parameter; `sample_rate` is passed to
the generator by the pipeline itself. -/
structure Instrument (F : Type) where
  attack_s : ℚ
  decay_s : ℚ
  sustain_level : ℚ
  generate_wave : List ℚ → List F → ℕ → List ℚ

/-- Clamped attack sample count of `apply_ads_envelope`:
`min(int(sample_rate * attack_s), num_samples)`. -/
def attackSamples (attack_s : ℚ) (sample_rate n : ℕ) : ℕ :=
  min (pyInt ((sample_rate : ℚ) * attack_s)).toNat n

/-- Clamped decay sample count of `apply_ads_envelope`:
`min(int(sample_rate * decay_s), num_samples - attack_samples)`. -/
def decaySamples (attack_s decay_s : ℚ) (sample_rate n : ℕ) : ℕ :=
  min (pyInt ((sample_rate : ℚ) * decay_s)).toNat
    (n - attackSamples attack_s sample_rate n)

/-- The samplewise gain applied by `apply_ads_envelope` on a buffer of `n`
samples: a linear `0 → 1` ramp over the attack samples, a linear
`1 → sustain_level` ramp over the decay samples, and `sustain_level` on
the remaining sustain samples.  (The source multiplies the three slices
of the buffer in place; the concatenation below is that same gain.) -/
def adsEnvelope (attack_samples decay_samples : ℕ) (sustain_level : ℚ) (n : ℕ) :
    List ℚ :=
  linspace 0 1 attack_samples ++ linspace 1 sustain_level decay_samples ++
    List.replicate (n - attack_samples - decay_samples) sustain_level

/-- Embedding of `BaseInstrument.apply_ads_envelope`: a zero-length buffer
is returned unchanged, otherwise the buffer is multiplied samplewise by
the ADS gain. -/
def apply_ads_envelope (attack_s decay_s sustain_level : ℚ) (waveform : List ℚ)
    (sample_rate : ℕ) : List ℚ :=
  let n := waveform.length
  if n = 0 then waveform
  else
    List.zipWith (· * ·)
      (adsEnvelope (attackSamples attack_s sample_rate n)
        (decaySamples attack_s decay_s sample_rate n) sustain_level n)
      waveform

/-- The normalize-and-amplitude step of `BaseInstrument.get_waveform`:
divide by the peak absolute value when it is positive (the division is
skipped on an identically-zero buffer), then multiply by `amplitude`. -/
def normalizeAmp (amplitude : ℚ) (raw_wave : List ℚ) : List ℚ :=
  (if 0 < peakAbs raw_wave then raw_wave.map (· / peakAbs raw_wave)
   else raw_wave).map (· * amplitude)

/-- Embedding of `BaseInstrument.get_waveform`: build the time axis of
`int(sample_rate * duration_s)` samples, return silence for an empty
frequency list (never calling the generator), otherwise generate, peak
normalize, scale by `amplitude` and apply the ADS envelope. -/
def get_waveform {F : Type} (inst : Instrument F) (frequencies : List F)
    (duration_s : ℚ) (sample_rate : ℕ) (amplitude : ℚ) : List ℚ :=
  let num_samples := numSamples sample_rate duration_s
  let t := timeAxis duration_s num_samples
  if frequencies.isEmpty then List.replicate num_samples 0
  else
    apply_ads_envelope inst.attack_s inst.decay_s inst.sustain_level
      (normalizeAmp amplitude (inst.generate_wave t frequencies sample_rate))
      sample_rate

/-- The normalize-and-amplitude step with numpy's fallible max: `none`
exactly when `np.max` raises on an empty raw wave; on success the value
is the same buffer `normalizeAmp` computes. -/
def normalizeAmpQ (amplitude : ℚ) (raw_wave : List ℚ) : Option (List ℚ) :=
  (npMaxAbs raw_wave).map fun max_val =>
    (if 0 < max_val then raw_wave.map (· / max_val) else raw_wave).map
      (· * amplitude)

/-- Fallible embedding of `BaseInstrument.get_waveform`: identical to
`get_waveform` except that the peak computation is `npMaxAbs`, so the
result is `none` exactly where the source raises `ValueError` — a
non-empty frequency list whose time axis has `int(sample_rate *
duration_s) = 0` samples makes `np.max(np.abs(raw_wave))` a zero-size
reduction. -/
def get_waveformQ {F : Type} (inst : Instrument F) (frequencies : List F)
    (duration_s : ℚ) (sample_rate : ℕ) (amplitude : ℚ) : Option (List ℚ) :=
  let num_samples := numSamples sample_rate duration_s
  let t := timeAxis duration_s num_samples
  if frequencies.isEmpty then some (List.replicate num_samples 0)
  else
    (normalizeAmpQ amplitude (inst.generate_wave t frequencies sample_rate)).map
      fun w =>
        apply_ads_envelope inst.attack_s inst.decay_s inst.sustain_level w
          sample_rate

/-! ## Sequencer (`src/mixing.py`: `AudioMixer`, `SongPlayer`) -/

/-- Embedding of `AudioMixer.get_silence_waveform`:
`int(sample_rate * duration_s)` zeros. -/
def get_silence_waveform (sample_rate : ℕ) (duration_s : ℚ) : List ℚ :=
  List.replicate (numSamples sample_rate duration_s) 0

/-- Embedding of `AudioMixer.get_chord_waveform`: silence for an empty
frequency list, otherwise the instrument waveform. -/
def get_chord_waveform {F : Type} (inst : Instrument F) (frequencies : List F)
    (duration_s : ℚ) (sample_rate : ℕ) (amplitude : ℚ) : List ℚ :=
  if frequencies.isEmpty then get_silence_waveform sample_rate duration_s
  else get_waveform inst frequencies duration_s sample_rate amplitude

/-- The fade applied by `SongPlayer.get_note_waveform` to the last `k`
samples of a buffer: a linear `1 → 0` ramp. -/
def applyFadeTail (w : List ℚ) (k : ℕ) : List ℚ :=
  w.take (w.length - k) ++
    List.zipWith (· * ·) (linspace 1 0 k) (w.drop (w.length - k))

/-- Embedding of `SongPlayer.get_note_waveform`: resolve the note names
through the frequency calculator `fc` (unresolvable names are dropped),
build the chord waveform, and fade out the last
`int(sample_rate * min(duration_s * 0.05, 0.01))` samples when that count
is positive and smaller than the buffer. -/
def get_note_waveform {F : Type} (fc : String → Option F) (inst : Instrument F)
    (sample_rate : ℕ) (note_list : List String) (duration_s amplitude : ℚ) :
    List ℚ :=
  let frequencies := note_list.filterMap fc
  let base_wave := get_chord_waveform inst frequencies duration_s sample_rate amplitude
  let fade_duration_s := min (duration_s * (5 / 100)) (1 / 100)
  let fade_out_samples := numSamples sample_rate fade_duration_s
  if 0 < fade_out_samples ∧ fade_out_samples < base_wave.length then
    applyFadeTail base_wave fade_out_samples
  else base_wave

/-- Embedding of `self.base_beat_duration_s = 60.0 / self.tempo`. -/
def base_beat_duration_s (tempo : ℚ) : ℚ :=
  60 / tempo

/-- Embedding of
`self.quarter_note_duration_s = self.base_beat_duration_s * (self.beat_unit / 4.0)`. -/
def quarter_note_duration_s (tempo beat_unit : ℚ) : ℚ :=
  base_beat_duration_s tempo * (beat_unit / 4)

/-- Per-event duration in seconds computed by
`SongPlayer.generate_song_waveform`:
`duration_s = self.quarter_note_duration_s * num_beats`. -/
def eventDuration_s (tempo beat_unit num_beats : ℚ) : ℚ :=
  quarter_note_duration_s tempo beat_unit * num_beats

/-- Embedding of `SongPlayer.generate_song_waveform`: render each
`(note_list, num_beats)` event at `quarter_note_duration_s * num_beats`
seconds and concatenate the chunks. -/
def generate_song_waveform {F : Type} (fc : String → Option F)
    (inst : Instrument F) (tempo beat_unit : ℚ) (sample_rate : ℕ)
    (song_data : List (List String × ℚ)) (amplitude : ℚ) : List ℚ :=
  (song_data.map fun e =>
    get_note_waveform fc inst sample_rate e.1
      (eventDuration_s tempo beat_unit e.2) amplitude).flatten

/-! ## Multi-track mixer (`src/mixing.py`: `MultiTrackMixer`) -/

/-- Longest track length, `max(len(t[0]) for t in tracks_with_volumes)`
(the source only evaluates this on a non-empty list, where the `0`
base of the fold is absorbed). -/
def maxTrackLen (tracks : List (List ℚ × ℚ)) : ℕ :=
  (tracks.map fun t => t.1.length).foldr max 0

/-- One track scaled by its clamped volume:
`scaled_track = track_wave * max(0.0, volume)`. -/
def scaleTrack (t : List ℚ × ℚ) : List ℚ :=
  t.1.map (· * clampVolume t.2)

/-- Embedding of `master_track[:len(scaled_track)] += scaled_track`:
add `track` into the prefix of `master` (which is at least as long). -/
def addIntoMaster (master track : List ℚ) : List ℚ :=
  List.zipWith (· + ·) (master.take track.length) track ++
    master.drop track.length

/-- The summation loop of `mix_tracks` starting from `np.zeros(max_len)`;
empty tracks are skipped (`continue`). -/
def mixSum (max_len : ℕ) (tracks : List (List ℚ × ℚ)) : List ℚ :=
  tracks.foldl
    (fun acc t => if t.1.length = 0 then acc else addIntoMaster acc (scaleTrack t))
    (List.replicate max_len 0)

/-- Embedding of `MultiTrackMixer.mix_tracks` (with the master amplitude
already clamped to `[0, 1]` by `__init__` via `np.clip`): an empty track
list yields an empty buffer; otherwise sum the volume-scaled tracks over
the longest length, rescale by the peak if it exceeds `1.0`, scale by the
master amplitude, and hard-clip to `[-1.0, 1.0]`. -/
def mix_tracks (master_amplitude : ℚ) (tracks : List (List ℚ × ℚ)) : List ℚ :=
  if tracks.isEmpty then []
  else
    let master := mixSum (maxTrackLen tracks) tracks
    let peak := peakAbs master
    let rescaled := if 1 < peak then master.map (· / peak) else master
    (rescaled.map (· * clamp01 master_amplitude)).map clipSample

/-! ## Spec-side definitions

These follow the specification's words rather than the source, for the
refinement comparisons: the spec's grammar `[A-G][#b]?[digit]` read as a
match of the whole input string, and the prefix-form conditions that the
source actually decides. -/

/-- Spec wording, read as a full match: the input string consists of
exactly a letter `A`–`G`, an optional `#` or `b`, and a single digit. -/
def specGrammarFullB (s : String) : Bool :=
  match s.data with
  | [c, d] => isNoteLetter c && isDigitChar d
  | [c, a, d] => isNoteLetter c && isAccidentalChar a && isDigitChar d
  | _ => false

/-- Spec wording for the second failure mode: the input starts with a
letter and optional accidental whose pair is not a recognized pitch
class. -/
def specPairUnrecognizedB (s : String) : Bool :=
  match s.data with
  | c :: a :: _ =>
    if isAccidentalChar a then (note_map c (some a)).isNone
    else isNoteLetter c && (note_map c none).isNone
  | [c] => isNoteLetter c && (note_map c none).isNone
  | [] => false

/-- The condition the source actually decides: the (stripped) character
list begins with a letter `A`–`G`, an optional `#` or `b`, and a digit —
trailing characters permitted. -/
def hasGrammarPrefixB (l : List Char) : Bool :=
  match l with
  | c :: a :: d :: _ =>
    isNoteLetter c && ((isAccidentalChar a && isDigitChar d) || isDigitChar a)
  | [c, a] => isNoteLetter c && isDigitChar a
  | _ => false

/-- The full success condition of `get_frequency`: a grammar-matching
prefix exists and the letter+accidental pair it matches is a recognized
pitch class. -/
def recognizedPrefixB (l : List Char) : Bool :=
  match l with
  | c :: a :: d :: _ =>
    if isNoteLetter c then
      if isAccidentalChar a && isDigitChar d then (note_map c (some a)).isSome
      else isDigitChar a && (note_map c none).isSome
    else false
  | [c, a] => isNoteLetter c && isDigitChar a && (note_map c none).isSome
  | _ => false

/-! ## Helper lemmas -/

theorem linspace_length (a b : ℚ) (n : ℕ) : (linspace a b n).length = n := by
  unfold linspace
  split
  · rw [List.length_replicate]
  · rw [List.length_map, List.length_range]

theorem linspace_head (a b : ℚ) (n : ℕ) (hn : 0 < n) :
    (linspace a b n).head? = some a := by
  unfold linspace
  split
  · match n, hn with
    | 1, _ => rfl
  · rename_i h
    match n, h with
    | (m + 2), _ =>
      simp [List.range_succ_eq_map]

theorem linspace_mem_of_le (a b : ℚ) (n : ℕ) (hab : a ≤ b) :
    ∀ x ∈ linspace a b n, a ≤ x ∧ x ≤ b := by
  intro x hx
  unfold linspace at hx
  split at hx
  · have hxa := List.eq_of_mem_replicate hx
    subst hxa
    exact ⟨le_refl x, hab⟩
  · rename_i h
    push_neg at h
    obtain ⟨i, hi, rfl⟩ := List.mem_map.mp hx
    have hi' : i < n := List.mem_range.mp hi
    have hn1 : (0 : ℚ) < (n : ℚ) - 1 := by
      have : (2 : ℚ) ≤ (n : ℚ) := by exact_mod_cast h
      linarith
    have hi1 : (i : ℚ) ≤ (n : ℚ) - 1 := by
      have h1 : i ≤ n - 1 := Nat.le_pred_of_lt hi'
      have h2 : (1 : ℕ) ≤ n := by omega
      have h3 := (Nat.cast_le (α := ℚ)).mpr h1
      rwa [Nat.cast_sub h2] at h3
    have ht0 : (0 : ℚ) ≤ (i : ℚ) / ((n : ℚ) - 1) :=
      div_nonneg (Nat.cast_nonneg i) (le_of_lt hn1)
    have ht1 : (i : ℚ) / ((n : ℚ) - 1) ≤ 1 := by
      rw [div_le_one hn1]; exact hi1
    constructor
    · have : 0 ≤ (b - a) * i / ((n : ℚ) - 1) := by
        rw [mul_div_assoc]
        exact mul_nonneg (by linarith) ht0
      linarith
    · have : (b - a) * i / ((n : ℚ) - 1) ≤ b - a := by
        rw [mul_div_assoc]
        calc (b - a) * ((i : ℚ) / ((n : ℚ) - 1)) ≤ (b - a) * 1 :=
              mul_le_mul_of_nonneg_left ht1 (by linarith)
          _ = b - a := mul_one _
      linarith

theorem linspace_mem_of_ge (a b : ℚ) (n : ℕ) (hba : b ≤ a) :
    ∀ x ∈ linspace a b n, b ≤ x ∧ x ≤ a := by
  intro x hx
  unfold linspace at hx
  split at hx
  · have hxa := List.eq_of_mem_replicate hx
    subst hxa
    exact ⟨hba, le_refl x⟩
  · rename_i h
    push_neg at h
    obtain ⟨i, hi, rfl⟩ := List.mem_map.mp hx
    have hi' : i < n := List.mem_range.mp hi
    have hn1 : (0 : ℚ) < (n : ℚ) - 1 := by
      have : (2 : ℚ) ≤ (n : ℚ) := by exact_mod_cast h
      linarith
    have hi1 : (i : ℚ) ≤ (n : ℚ) - 1 := by
      have h1 : i ≤ n - 1 := Nat.le_pred_of_lt hi'
      have h2 : (1 : ℕ) ≤ n := by omega
      have h3 := (Nat.cast_le (α := ℚ)).mpr h1
      rwa [Nat.cast_sub h2] at h3
    have ht0 : (0 : ℚ) ≤ (i : ℚ) / ((n : ℚ) - 1) :=
      div_nonneg (Nat.cast_nonneg i) (le_of_lt hn1)
    have ht1 : (i : ℚ) / ((n : ℚ) - 1) ≤ 1 := by
      rw [div_le_one hn1]; exact hi1
    have heq : a + (b - a) * i / ((n : ℚ) - 1) = a - (a - b) * ((i : ℚ) / ((n : ℚ) - 1)) := by
      ring
    constructor
    · have : (a - b) * ((i : ℚ) / ((n : ℚ) - 1)) ≤ (a - b) * 1 :=
        mul_le_mul_of_nonneg_left ht1 (by linarith)
      rw [heq]
      linarith [mul_one (a - b)]
    · have : 0 ≤ (a - b) * ((i : ℚ) / ((n : ℚ) - 1)) :=
        mul_nonneg (by linarith) ht0
      rw [heq]
      linarith

theorem peakAbs_nonneg (l : List ℚ) : 0 ≤ peakAbs l := by
  induction l with
  | nil => exact le_refl 0
  | cons x xs ih => exact le_trans ih (le_max_right _ _)

theorem abs_le_peakAbs (l : List ℚ) (x : ℚ) (hx : x ∈ l) : |x| ≤ peakAbs l := by
  induction l with
  | nil => cases hx
  | cons y ys ih =>
    rcases List.mem_cons.mp hx with rfl | h
    · exact le_max_left _ _
    · exact le_trans (ih h) (le_max_right _ _)

theorem peakAbs_map_mul (l : List ℚ) (c : ℚ) :
    peakAbs (l.map (· * c)) = |c| * peakAbs l := by
  induction l with
  | nil => simp [peakAbs]
  | cons x xs ih =>
    simp only [List.map_cons, peakAbs, List.foldr_cons] at ih ⊢
    rw [ih, abs_mul, mul_max_of_nonneg _ _ (abs_nonneg c), mul_comm |x| |c|]

theorem peakAbs_map_div (l : List ℚ) (p : ℚ) (hp : 0 < p) :
    peakAbs (l.map (· / p)) = peakAbs l / p := by
  have h1 : l.map (· / p) = l.map (· * p⁻¹) := by
    simp [div_eq_mul_inv]
  rw [h1, peakAbs_map_mul, abs_of_nonneg (inv_nonneg.mpr (le_of_lt hp)),
    div_eq_mul_inv, mul_comm]

theorem peakAbs_eq_zero_iff (l : List ℚ) : peakAbs l = 0 ↔ ∀ x ∈ l, x = 0 := by
  constructor
  · intro h x hx
    have h1 := abs_le_peakAbs l x hx
    rw [h] at h1
    exact abs_eq_zero.mp (le_antisymm h1 (abs_nonneg x))
  · intro h
    induction l with
    | nil => rfl
    | cons y ys ih =>
      have hy : y = 0 := h y (List.mem_cons_self y ys)
      have hys : peakAbs ys = 0 := ih (fun x hx => h x (List.mem_cons_of_mem y hx))
      simp only [peakAbs, List.foldr_cons] at hys ⊢
      rw [hys, hy, abs_zero, max_self]

theorem zipWith_mul_length (env w : List ℚ) :
    (List.zipWith (· * ·) env w).length = min env.length w.length :=
  List.length_zipWith _ _ _

theorem adsEnvelope_length (a d : ℕ) (s : ℚ) (n : ℕ) (ha : a ≤ n) (hd : d ≤ n - a) :
    (adsEnvelope a d s n).length = n := by
  unfold adsEnvelope
  rw [List.length_append, List.length_append, linspace_length, linspace_length,
    List.length_replicate]
  omega

theorem attackSamples_le (attack_s : ℚ) (sr n : ℕ) : attackSamples attack_s sr n ≤ n :=
  min_le_right _ _

theorem decaySamples_le (attack_s decay_s : ℚ) (sr n : ℕ) :
    decaySamples attack_s decay_s sr n ≤ n - attackSamples attack_s sr n :=
  min_le_right _ _

theorem apply_ads_envelope_length (attack_s decay_s sustain_level : ℚ)
    (w : List ℚ) (sr : ℕ) :
    (apply_ads_envelope attack_s decay_s sustain_level w sr).length = w.length := by
  unfold apply_ads_envelope
  dsimp only
  split
  · rfl
  · rw [zipWith_mul_length,
      adsEnvelope_length _ _ _ _ (attackSamples_le _ _ _) (decaySamples_le _ _ _ _),
      min_self]

theorem normalizeAmp_length (amp : ℚ) (raw : List ℚ) :
    (normalizeAmp amp raw).length = raw.length := by
  unfold normalizeAmp
  split <;> simp

theorem timeAxis_length (d : ℚ) (n : ℕ) : (timeAxis d n).length = n := by
  unfold timeAxis
  rw [List.length_map, List.length_range]

theorem get_waveform_length {F : Type} (inst : Instrument F)
    (hgen : ∀ t fs sr, (inst.generate_wave t fs sr).length = t.length)
    (frequencies : List F) (duration_s : ℚ) (sample_rate : ℕ) (amplitude : ℚ) :
    (get_waveform inst frequencies duration_s sample_rate amplitude).length =
      numSamples sample_rate duration_s := by
  unfold get_waveform
  split
  · rw [List.length_replicate]
  · rw [apply_ads_envelope_length, normalizeAmp_length, hgen, timeAxis_length]

theorem get_chord_waveform_length {F : Type} (inst : Instrument F)
    (hgen : ∀ t fs sr, (inst.generate_wave t fs sr).length = t.length)
    (frequencies : List F) (duration_s : ℚ) (sample_rate : ℕ) (amplitude : ℚ) :
    (get_chord_waveform inst frequencies duration_s sample_rate amplitude).length =
      numSamples sample_rate duration_s := by
  unfold get_chord_waveform get_silence_waveform
  split
  · rw [List.length_replicate]
  · exact get_waveform_length inst hgen _ _ _ _

theorem applyFadeTail_length (w : List ℚ) (k : ℕ) (hk : k ≤ w.length) :
    (applyFadeTail w k).length = w.length := by
  unfold applyFadeTail
  rw [List.length_append, List.length_take, zipWith_mul_length, linspace_length,
    List.length_drop]
  omega

theorem get_note_waveform_length {F : Type} (fc : String → Option F)
    (inst : Instrument F)
    (hgen : ∀ t fs sr, (inst.generate_wave t fs sr).length = t.length)
    (sample_rate : ℕ) (note_list : List String) (duration_s amplitude : ℚ) :
    (get_note_waveform fc inst sample_rate note_list duration_s amplitude).length =
      numSamples sample_rate duration_s := by
  unfold get_note_waveform
  have hbase := get_chord_waveform_length inst hgen (note_list.filterMap fc)
    duration_s sample_rate amplitude
  dsimp only
  split
  · rename_i h
    rw [applyFadeTail_length _ _ (le_of_lt h.2), hbase]
  · exact hbase

theorem zipWith_add_replicate_zero (l : List ℚ) :
    List.zipWith (· + ·) (List.replicate l.length 0) l = l := by
  induction l with
  | nil => rfl
  | cons x xs ih =>
    simp only [List.length_cons, List.replicate_succ, List.zipWith_cons_cons, zero_add]
    rw [ih]

theorem map_mul_one (l : List ℚ) : l.map (· * (1 : ℚ)) = l := by
  simp

theorem clipSample_of_abs_le (x : ℚ) (hx : |x| ≤ 1) : clipSample x = x := by
  rw [abs_le] at hx
  unfold clipSample
  rw [max_eq_right hx.1, min_eq_right hx.2]

theorem clipSample_mem_Icc (x : ℚ) : -1 ≤ clipSample x ∧ clipSample x ≤ 1 := by
  unfold clipSample
  constructor
  · exact le_min (by norm_num) (le_max_left _ _)
  · exact min_le_left _ _

theorem map_clipSample_of_peak_le (l : List ℚ) (h : peakAbs l ≤ 1) :
    l.map clipSample = l := by
  have : ∀ x ∈ l, clipSample x = x := fun x hx =>
    clipSample_of_abs_le x (le_trans (abs_le_peakAbs l x hx) h)
  calc l.map clipSample = l.map id := List.map_congr_left this
    _ = l := List.map_id l

theorem getD_map_mul (l : List ℚ) (c : ℚ) (i : ℕ) :
    (l.map (· * c)).getD i 0 = l.getD i 0 * c := by
  induction l generalizing i with
  | nil => simp
  | cons x xs ih =>
    cases i with
    | zero => rfl
    | succ j => simpa using ih j

theorem maxTrackLen_le (tracks : List (List ℚ × ℚ)) (t : List ℚ × ℚ)
    (ht : t ∈ tracks) : t.1.length ≤ maxTrackLen tracks := by
  unfold maxTrackLen
  induction tracks with
  | nil => cases ht
  | cons s ss ih =>
    rcases List.mem_cons.mp ht with rfl | h
    · exact le_max_left _ _
    · exact le_trans (ih h) (le_max_right _ _)

theorem scaleTrack_length (t : List ℚ × ℚ) : (scaleTrack t).length = t.1.length := by
  unfold scaleTrack
  rw [List.length_map]

theorem addIntoMaster_length (master track : List ℚ)
    (h : track.length ≤ master.length) :
    (addIntoMaster master track).length = master.length := by
  unfold addIntoMaster
  rw [List.length_append, List.length_zipWith, List.length_take, List.length_drop]
  omega

theorem clamp01_nonneg (x : ℚ) : 0 ≤ clamp01 x :=
  le_min (by norm_num) (le_max_left 0 x)

theorem clamp01_le_one (x : ℚ) : clamp01 x ≤ 1 :=
  min_le_left 1 _

theorem mixSum_single (w : List ℚ) :
    mixSum (maxTrackLen [(w, 1)]) [(w, 1)] = w := by
  unfold mixSum maxTrackLen
  simp only [List.map_cons, List.map_nil, List.foldr_cons, List.foldr_nil,
    List.foldl_cons, List.foldl_nil, Nat.max_zero]
  rcases Nat.eq_zero_or_pos w.length with h0 | hpos
  · rw [if_pos h0]
    rw [List.length_eq_zero] at h0
    rw [h0]
    rfl
  · rw [if_neg (Nat.pos_iff_ne_zero.mp hpos)]
    have hscale : scaleTrack (w, 1) = w := by
      unfold scaleTrack clampVolume
      simp only [max_eq_right (by norm_num : (0 : ℚ) ≤ 1)]
      exact map_mul_one w
    rw [hscale]
    unfold addIntoMaster
    rw [List.take_of_length_le (by rw [List.length_replicate]),
      List.drop_eq_nil_of_le (by rw [List.length_replicate])]
    rw [zipWith_add_replicate_zero, List.append_nil]

/-! ## Claim theorems -/

/-- C8: mixing a single track at volume `1.0` with `master_amplitude`
`1.0` returns that track's waveform unchanged, sample for sample,
whenever the track's peak absolute value is at most `1.0`. -/
theorem C8_mixer_identity (w : List ℚ) (hpeak : peakAbs w ≤ 1) :
    mix_tracks 1 [(w, 1)] = w := by
  unfold mix_tracks
  rw [if_neg (by simp)]
  dsimp only
  rw [mixSum_single]
  rw [if_neg (not_lt.mpr hpeak)]
  have hclamp : clamp01 1 = 1 := by norm_num [clamp01]
  rw [hclamp, map_mul_one, map_clipSample_of_peak_le w hpeak]

/-- Witness for C8 at the concrete track `[1/2, -1/2]`. -/
theorem C8_mixer_identity_witness :
    peakAbs [(1 : ℚ)/2, -(1 : ℚ)/2] ≤ 1 ∧
      mix_tracks 1 [([(1 : ℚ)/2, -(1 : ℚ)/2], 1)] = [(1 : ℚ)/2, -(1 : ℚ)/2] :=
  ⟨by norm_num [peakAbs, abs_of_nonneg, abs_of_nonpos],
    C8_mixer_identity _ (by norm_num [peakAbs, abs_of_nonneg, abs_of_nonpos])⟩

/-- C9: the multi-track mixer maps the empty track list to the empty
buffer (not an error), and every sample of any mixed output lies in the
closed interval `[-1, 1]`. -/
theorem C9_mixer_output_clipped (master_amplitude : ℚ)
    (tracks : List (List ℚ × ℚ)) :
    mix_tracks master_amplitude [] = [] ∧
      ∀ x ∈ mix_tracks master_amplitude tracks, -1 ≤ x ∧ x ≤ 1 := by
  constructor
  · rfl
  · intro x hx
    unfold mix_tracks at hx
    split at hx
    · cases hx
    · dsimp only at hx
      obtain ⟨y, _, rfl⟩ := List.mem_map.mp hx
      exact clipSample_mem_Icc y

/-- Witness for C9 at a concrete mix whose naive sum overflows. -/
theorem C9_mixer_output_clipped_witness :
    ((4 : ℚ)/5) ∈ mix_tracks (4/5) [([2, 1], 1)] ∧
      (-1 ≤ (4 : ℚ)/5 ∧ (4 : ℚ)/5 ≤ 1) := by
  have hmem : ((4 : ℚ)/5) ∈ mix_tracks (4/5) [([2, 1], 1)] := by
    norm_num [mix_tracks, mixSum, maxTrackLen, scaleTrack, addIntoMaster, clampVolume,
      clamp01, clipSample, peakAbs, List.zipWith, List.replicate, List.foldr, List.foldl,
      List.take, List.drop, abs_of_nonneg, abs_of_nonpos, max_def, min_def]
  exact ⟨hmem, (C9_mixer_output_clipped (4/5) [([2, 1], 1)]).2 _ hmem⟩

/-- C4: when the volume-scaled, zero-padded sum of a non-empty track list
has peak above `1.0`, the final output is exactly the rescaled sum scaled
by the clamped master amplitude (so the hard clip is a no-op and the
ratio of any two output samples equals their ratio in the
rescaled-but-unclipped sum), and the output's peak equals the clamped
master amplitude. -/
theorem C4_mixer_overflow_law (master_amplitude : ℚ)
    (tracks : List (List ℚ × ℚ)) (hne : tracks ≠ [])
    (hover : 1 < peakAbs (mixSum (maxTrackLen tracks) tracks)) :
    mix_tracks master_amplitude tracks =
      ((mixSum (maxTrackLen tracks) tracks).map
        (· / peakAbs (mixSum (maxTrackLen tracks) tracks))).map
        (· * clamp01 master_amplitude) ∧
    peakAbs (mix_tracks master_amplitude tracks) = clamp01 master_amplitude ∧
    ∀ i j : ℕ,
      (mix_tracks master_amplitude tracks).getD i 0 *
        ((mixSum (maxTrackLen tracks) tracks).map
          (· / peakAbs (mixSum (maxTrackLen tracks) tracks))).getD j 0 =
      (mix_tracks master_amplitude tracks).getD j 0 *
        ((mixSum (maxTrackLen tracks) tracks).map
          (· / peakAbs (mixSum (maxTrackLen tracks) tracks))).getD i 0 := by
  have hpeak0 : 0 < peakAbs (mixSum (maxTrackLen tracks) tracks) := lt_trans one_pos hover
  set master := mixSum (maxTrackLen tracks) tracks with hmaster
  set peak := peakAbs master with hpeak
  set resc := master.map (· / peak) with hresc
  set out := resc.map (· * clamp01 master_amplitude) with hout
  have hpr : peakAbs resc = 1 := by
    rw [hresc, peakAbs_map_div _ _ hpeak0, ← hpeak, div_self (ne_of_gt hpeak0)]
  have hpo : peakAbs out = clamp01 master_amplitude := by
    rw [hout, peakAbs_map_mul, hpr,
      abs_of_nonneg (clamp01_nonneg master_amplitude), mul_one]
  have hmix : mix_tracks master_amplitude tracks = out := by
    unfold mix_tracks
    rw [if_neg (by simpa using hne)]
    dsimp only
    rw [← hmaster, ← hpeak, if_pos hover, ← hresc, ← hout]
    exact map_clipSample_of_peak_le out (hpo ▸ clamp01_le_one master_amplitude)
  refine ⟨hmix, by rw [hmix, hpo], ?_⟩
  intro i j
  rw [hmix, hout, getD_map_mul, getD_map_mul]
  ring

/-- Witness for C4 at the concrete overflowing mix of one track `[2]`. -/
theorem C4_mixer_overflow_law_witness :
    ([(([2] : List ℚ), (1 : ℚ))] ≠ []) ∧
      1 < peakAbs (mixSum (maxTrackLen [(([2] : List ℚ), (1 : ℚ))])
        [(([2] : List ℚ), (1 : ℚ))]) ∧
      peakAbs (mix_tracks (4/5) [(([2] : List ℚ), (1 : ℚ))]) = clamp01 (4/5) := by
  have hover : 1 < peakAbs (mixSum (maxTrackLen [(([2] : List ℚ), (1 : ℚ))])
      [(([2] : List ℚ), (1 : ℚ))]) := by
    norm_num [mixSum, maxTrackLen, scaleTrack, addIntoMaster, clampVolume, peakAbs,
      List.zipWith, List.replicate, List.foldr, List.foldl, List.take, List.drop,
      abs_of_nonneg, abs_of_nonpos, max_def, min_def]
  exact ⟨by simp, hover,
    (C4_mixer_overflow_law (4/5) [(([2] : List ℚ), (1 : ℚ))] (by simp) hover).2.1⟩

theorem linspace_zero (a b : ℚ) : linspace a b 0 = [] := by
  unfold linspace
  rw [if_pos (Nat.zero_le 1)]
  rfl

theorem adsEnvelope_head_attack (a d : ℕ) (s : ℚ) (n : ℕ) (ha : 0 < a) :
    (adsEnvelope a d s n).head? = some 0 := by
  unfold adsEnvelope
  rw [List.head?_append, List.head?_append, linspace_head _ _ _ ha]
  rfl

theorem adsEnvelope_head_decay (d : ℕ) (s : ℚ) (n : ℕ) (hd : 0 < d) :
    (adsEnvelope 0 d s n).head? = some 1 := by
  unfold adsEnvelope
  rw [linspace_zero, List.nil_append, List.head?_append, linspace_head _ _ _ hd]
  rfl

theorem adsEnvelope_head_sustain (s : ℚ) (n : ℕ) (hn : 0 < n) :
    (adsEnvelope 0 0 s n).head? = some s := by
  unfold adsEnvelope
  rw [linspace_zero, linspace_zero, List.nil_append, List.nil_append,
    List.head?_replicate, if_neg (by omega)]

theorem adsEnvelope_mem_Icc (a d : ℕ) (s : ℚ) (n : ℕ) (hs0 : 0 ≤ s) (hs1 : s ≤ 1) :
    ∀ g ∈ adsEnvelope a d s n, 0 ≤ g ∧ g ≤ 1 := by
  intro g hg
  unfold adsEnvelope at hg
  rcases List.mem_append.mp hg with hg12 | hg3
  · rcases List.mem_append.mp hg12 with hg1 | hg2
    · exact linspace_mem_of_le 0 1 a (by norm_num) g hg1
    · have h := linspace_mem_of_ge 1 s d hs1 g hg2
      exact ⟨le_trans hs0 h.1, h.2⟩
  · have h := List.eq_of_mem_replicate hg3
    subst h
    exact ⟨hs0, hs1⟩

/-- C7 (amended): for envelope parameters with `attack_s, decay_s ≥ 0` and
`sustain_level ∈ [0,1]` and any buffer length `N`, the ADS gain is
non-negative and never exceeds `1`; it starts at `0` when
`attack_samples > 0`, at `1` when `attack_samples = 0 < decay_samples`,
and at `sustain_level` when both are `0` (the claim's `1/sustain_level`
start is wrong); the clamped `attack_samples + decay_samples` never
exceeds `N`; and a zero-length buffer is returned unchanged. -/
theorem C7_envelope_invariants (attack_s decay_s sustain_level : ℚ) (sr N : ℕ)
    (ha : 0 ≤ attack_s) (hd : 0 ≤ decay_s) (hs0 : 0 ≤ sustain_level)
    (hs1 : sustain_level ≤ 1) :
    (∀ g ∈ adsEnvelope (attackSamples attack_s sr N)
        (decaySamples attack_s decay_s sr N) sustain_level N, 0 ≤ g ∧ g ≤ 1) ∧
    (0 < attackSamples attack_s sr N →
      (adsEnvelope (attackSamples attack_s sr N)
        (decaySamples attack_s decay_s sr N) sustain_level N).head? = some 0) ∧
    (attackSamples attack_s sr N = 0 → 0 < decaySamples attack_s decay_s sr N →
      (adsEnvelope (attackSamples attack_s sr N)
        (decaySamples attack_s decay_s sr N) sustain_level N).head? = some 1) ∧
    (attackSamples attack_s sr N = 0 → decaySamples attack_s decay_s sr N = 0 →
      0 < N →
      (adsEnvelope (attackSamples attack_s sr N)
        (decaySamples attack_s decay_s sr N) sustain_level N).head? =
        some sustain_level) ∧
    attackSamples attack_s sr N + decaySamples attack_s decay_s sr N ≤ N ∧
    apply_ads_envelope attack_s decay_s sustain_level [] sr = [] := by
  refine ⟨adsEnvelope_mem_Icc _ _ _ _ hs0 hs1, ?_, ?_, ?_, ?_, rfl⟩
  · exact fun h => adsEnvelope_head_attack _ _ _ _ h
  · intro h0 hdpos
    rw [h0]
    exact adsEnvelope_head_decay _ _ _ hdpos
  · intro h0 hd0 hN
    rw [h0, hd0]
    exact adsEnvelope_head_sustain _ _ hN
  · have h1 := attackSamples_le attack_s sr N
    have h2 := decaySamples_le attack_s decay_s sr N
    omega

/-- Witness for C7 at `attack_s = decay_s = 1/4`, `sustain = 1/2`,
`sample_rate = 8`, `N = 4` (two attack and two decay samples). -/
theorem C7_envelope_invariants_witness :
    (0 ≤ (1 : ℚ)/4 ∧ 0 ≤ (1 : ℚ)/4 ∧ 0 ≤ (1 : ℚ)/2 ∧ (1 : ℚ)/2 ≤ 1) ∧
    (∀ g ∈ adsEnvelope (attackSamples (1/4) 8 4)
        (decaySamples (1/4) (1/4) 8 4) (1/2) 4, 0 ≤ g ∧ g ≤ 1) ∧
    attackSamples (1/4) 8 4 + decaySamples (1/4) (1/4) 8 4 ≤ 4 := by
  have h := C7_envelope_invariants (1/4) (1/4) (1/2) 8 4
    (by norm_num) (by norm_num) (by norm_num) (by norm_num)
  exact ⟨⟨by norm_num, by norm_num, by norm_num, by norm_num⟩, h.1, h.2.2.2.2.1⟩

/-- C7 counterexample: with `attack_s = decay_s = 0`, `sustain_level = 1/2`
and a four-sample buffer, `attack_samples = 0` and the envelope gain
starts at `sustain_level = 1/2`, not at `1/sustain_level = 2` as the
claim states. -/
theorem C7_envelope_start_counterexample :
    attackSamples 0 8 4 = 0 ∧
    (adsEnvelope (attackSamples 0 8 4) (decaySamples 0 0 8 4) (1/2) 4).head? =
      some (1/2) ∧
    (1 : ℚ)/2 ≠ 1 / ((1 : ℚ)/2) := by
  have ha : attackSamples 0 8 4 = 0 := by
    norm_num [attackSamples, pyInt]
  have hd : decaySamples 0 0 8 4 = 0 := by
    norm_num [decaySamples, pyInt]
  refine ⟨ha, ?_, by norm_num⟩
  rw [ha, hd]
  exact adsEnvelope_head_sustain _ _ (by norm_num)

/-- The buffer length the spec claims: `round(sample_rate * duration_s)`
(Mathlib's `round`, which agrees with any standard rounding away from
half-integers). -/
def specRound (q : ℚ) : ℤ :=
  round q

theorem normalizeAmpQ_of_isEmpty (amp : ℚ) (raw : List ℚ)
    (h : raw.isEmpty) : normalizeAmpQ amp raw = none := by
  unfold normalizeAmpQ npMaxAbs
  rw [if_pos h]
  rfl

theorem normalizeAmpQ_of_not_isEmpty (amp : ℚ) (raw : List ℚ)
    (h : ¬raw.isEmpty) : normalizeAmpQ amp raw = some (normalizeAmp amp raw) := by
  unfold normalizeAmpQ npMaxAbs normalizeAmp
  rw [if_neg h]
  rfl

/-- C2 (amended): for every instrument (any envelope parameters and any
length-preserving generator), every `duration_s ≥ 0` and
`sample_rate > 0`: whenever `get_waveform` returns a buffer at all, it
has exactly `int(sample_rate * duration_s)` samples (truncation, not the
claim's `round`); the call instead raises `ValueError` exactly when the
frequency list is non-empty and that count is zero (`np.max` on the
zero-size raw wave); and on the empty frequency list it returns an
all-zero buffer of that length for every generator — the generator is
never consulted. -/
theorem C2_waveform_length {F : Type} (inst : Instrument F)
    (hgen : ∀ t fs sr, (inst.generate_wave t fs sr).length = t.length)
    (frequencies : List F) (duration_s : ℚ) (sample_rate : ℕ) (amplitude : ℚ)
    (hd : 0 ≤ duration_s) (hsr : 0 < sample_rate) :
    (∀ w, get_waveformQ inst frequencies duration_s sample_rate amplitude =
      some w → w.length = numSamples sample_rate duration_s) ∧
    (get_waveformQ inst frequencies duration_s sample_rate amplitude = none ↔
      ¬frequencies.isEmpty ∧ numSamples sample_rate duration_s = 0) ∧
    get_waveformQ inst [] duration_s sample_rate amplitude =
      some (List.replicate (numSamples sample_rate duration_s) 0) := by
  have hlen : (inst.generate_wave
      (timeAxis duration_s (numSamples sample_rate duration_s))
      frequencies sample_rate).length = numSamples sample_rate duration_s := by
    rw [hgen, timeAxis_length]
  have hemp : (inst.generate_wave
      (timeAxis duration_s (numSamples sample_rate duration_s))
      frequencies sample_rate).isEmpty = true ↔
      numSamples sample_rate duration_s = 0 := by
    rw [List.isEmpty_iff, ← List.length_eq_zero, hlen]
  refine ⟨?_, ?_, rfl⟩
  · intro w hw
    unfold get_waveformQ at hw
    dsimp only at hw
    by_cases hfe : frequencies.isEmpty
    · rw [if_pos hfe] at hw
      injection hw with hw
      rw [← hw, List.length_replicate]
    · rw [if_neg hfe] at hw
      by_cases hre : (inst.generate_wave
          (timeAxis duration_s (numSamples sample_rate duration_s))
          frequencies sample_rate).isEmpty
      · rw [normalizeAmpQ_of_isEmpty _ _ hre] at hw
        cases hw
      · rw [normalizeAmpQ_of_not_isEmpty _ _ hre] at hw
        simp only [Option.map_some'] at hw
        injection hw with hw
        rw [← hw, apply_ads_envelope_length, normalizeAmp_length, hlen]
  · constructor
    · intro hnone
      unfold get_waveformQ at hnone
      dsimp only at hnone
      by_cases hfe : frequencies.isEmpty
      · rw [if_pos hfe] at hnone
        cases hnone
      · by_cases hre : (inst.generate_wave
            (timeAxis duration_s (numSamples sample_rate duration_s))
            frequencies sample_rate).isEmpty
        · exact ⟨hfe, hemp.mp hre⟩
        · rw [if_neg hfe, normalizeAmpQ_of_not_isEmpty _ _ hre] at hnone
          cases hnone
    · rintro ⟨hfe, hnum⟩
      unfold get_waveformQ
      dsimp only
      rw [if_neg hfe, normalizeAmpQ_of_isEmpty _ _ (hemp.mpr hnum)]
      rfl

/-- Witness for C2 with the identity generator at
`duration_s = 7/10`, `sample_rate = 4`. -/
theorem C2_waveform_length_witness :
    (∀ t fs sr,
      ((Instrument.mk 0 0 1 (fun t _ _ => t) : Instrument ℚ).generate_wave
        t fs sr).length = t.length) ∧
    (0 ≤ (7 : ℚ)/10) ∧ ((0 : ℕ) < 4) ∧
    (∀ w, get_waveformQ (Instrument.mk 0 0 1 (fun t _ _ => t) : Instrument ℚ)
      [1] (7/10) 4 1 = some w → w.length = numSamples 4 (7/10)) ∧
    get_waveformQ (Instrument.mk 0 0 1 (fun t _ _ => t) : Instrument ℚ)
      [] (7/10) 4 1 = some (List.replicate (numSamples 4 (7/10)) 0) := by
  have h := C2_waveform_length (Instrument.mk 0 0 1 (fun t _ _ => t) : Instrument ℚ)
    (fun _ _ _ => rfl) [1] (7/10) 4 1 (by norm_num) (by norm_num)
  exact ⟨fun _ _ _ => rfl, by norm_num, by norm_num, h.1, h.2.2⟩

/-- C2 counterexample: at `sample_rate = 4`, `duration_s = 7/10` the code
allocates `int(2.8) = 2` samples while the claim's `round(2.8) = 3`; and
at `duration_s = 0` with a non-empty frequency list the code raises
`ValueError` (`np.max` of the empty raw wave) instead of returning a
buffer of `round(0) = 0` samples. -/
theorem C2_length_counterexample :
    (get_waveform (Instrument.mk 0 0 1 (fun t _ _ => t) : Instrument ℚ)
      [1] (7/10) 4 1).length = 2 ∧
    specRound ((4 : ℚ) * (7/10)) = 3 ∧ (2 : ℤ) ≠ 3 ∧
    get_waveformQ (Instrument.mk 0 0 1 (fun t _ _ => t) : Instrument ℚ)
      [1] 0 4 1 = none := by
  refine ⟨?_, ?_, by norm_num, ?_⟩
  · rw [get_waveform_length (Instrument.mk 0 0 1 (fun t _ _ => t) : Instrument ℚ)
      (fun _ _ _ => rfl) [1] (7/10) 4 1]
    have h2 : pyInt (((4 : ℕ) : ℚ) * (7/10)) = 2 := by
      norm_num [pyInt]
      decide
    rw [numSamples, h2]
    rfl
  · rw [specRound, round_eq]
    norm_num
  · have h0 : numSamples 4 0 = 0 := by
      norm_num [numSamples, pyInt]
    unfold get_waveformQ
    dsimp only
    rw [if_neg (by decide), h0,
      normalizeAmpQ_of_isEmpty _ _ (by rfl)]
    rfl

/-- C3: for any instrument and non-empty frequency list with requested
amplitude `≥ 0`, the buffer after the normalize-and-amplitude step of
`get_waveform` (and before the envelope) has peak absolute value exactly
`amplitude`, unless the raw synthesized wave is identically zero, in
which case the division by the peak is skipped and every sample of the
scaled buffer is `0`; the third conjunct ties that intermediate buffer to
`get_waveform` itself. -/
theorem C3_peak_normalization {F : Type} (inst : Instrument F)
    (frequencies : List F) (duration_s : ℚ) (sample_rate : ℕ) (amplitude : ℚ)
    (hne : ¬frequencies.isEmpty) (hamp : 0 ≤ amplitude) :
    (¬(∀ x ∈ inst.generate_wave
          (timeAxis duration_s (numSamples sample_rate duration_s))
          frequencies sample_rate, x = 0) →
      peakAbs (normalizeAmp amplitude
        (inst.generate_wave
          (timeAxis duration_s (numSamples sample_rate duration_s))
          frequencies sample_rate)) = amplitude) ∧
    ((∀ x ∈ inst.generate_wave
          (timeAxis duration_s (numSamples sample_rate duration_s))
          frequencies sample_rate, x = 0) →
      ∀ x ∈ normalizeAmp amplitude
        (inst.generate_wave
          (timeAxis duration_s (numSamples sample_rate duration_s))
          frequencies sample_rate), x = 0) ∧
    get_waveform inst frequencies duration_s sample_rate amplitude =
      apply_ads_envelope inst.attack_s inst.decay_s inst.sustain_level
        (normalizeAmp amplitude
          (inst.generate_wave
            (timeAxis duration_s (numSamples sample_rate duration_s))
            frequencies sample_rate))
        sample_rate := by
  set raw := inst.generate_wave
    (timeAxis duration_s (numSamples sample_rate duration_s))
    frequencies sample_rate with hraw
  refine ⟨?_, ?_, ?_⟩
  · intro hnz
    have hp0 : peakAbs raw ≠ 0 := fun h => hnz ((peakAbs_eq_zero_iff raw).mp h)
    have hp : 0 < peakAbs raw := lt_of_le_of_ne (peakAbs_nonneg raw) (Ne.symm hp0)
    unfold normalizeAmp
    rw [if_pos hp, peakAbs_map_mul, peakAbs_map_div _ _ hp,
      div_self hp0, abs_of_nonneg hamp, mul_one]
  · intro hz x hx
    have hp : peakAbs raw = 0 := (peakAbs_eq_zero_iff raw).mpr hz
    unfold normalizeAmp at hx
    rw [if_neg (by rw [hp]; exact lt_irrefl 0)] at hx
    obtain ⟨y, hy, rfl⟩ := List.mem_map.mp hx
    rw [hz y hy, zero_mul]
  · unfold get_waveform
    rw [if_neg (by simpa using hne)]

/-- Witness for C3 with the identity generator: the raw wave is the time
axis `[0, 1/4, 1/2, 3/4]`, not identically zero, and the normalized peak
is the requested amplitude `1/2`. -/
theorem C3_peak_normalization_witness :
    ¬([(1 : ℚ)] : List ℚ).isEmpty ∧ (0 : ℚ) ≤ 1/2 ∧
    ¬(∀ x ∈ (Instrument.mk 0 0 1 (fun t _ _ => t) : Instrument ℚ).generate_wave
        (timeAxis 1 (numSamples 4 1)) [1] 4, x = 0) ∧
    peakAbs (normalizeAmp (1/2)
      ((Instrument.mk 0 0 1 (fun t _ _ => t) : Instrument ℚ).generate_wave
        (timeAxis 1 (numSamples 4 1)) [1] 4)) = 1/2 := by
  have hne : ¬([(1 : ℚ)] : List ℚ).isEmpty := by simp
  have hnz : ¬(∀ x ∈ (Instrument.mk 0 0 1 (fun t _ _ => t) : Instrument ℚ).generate_wave
      (timeAxis 1 (numSamples 4 1)) [1] 4, x = 0) := by
    intro h
    have h4 : numSamples 4 1 = 4 := by
      have : pyInt (((4 : ℕ) : ℚ) * 1) = 4 := by norm_num [pyInt]
      rw [numSamples, this]
      rfl
    have := h (1 * (3 : ℚ) / 4) (by
      rw [h4]
      simp [timeAxis, List.range_succ])
    norm_num at this
  exact ⟨hne, by norm_num,  hnz,
    (C3_peak_normalization (Instrument.mk 0 0 1 (fun t _ _ => t) : Instrument ℚ)
      [1] 1 4 (1/2) hne (by norm_num)).1 hnz⟩

/-- C1: the sequencer computes
`quarter_note_duration_s = (60 / tempo) * (beat_unit / 4)`; every score
event is rendered at `quarter_note_duration_s * num_beats` seconds; and a
`duration = 1` event rendered at tempo `120` under `4/4` and at tempo
`240` under `8/8` yields output buffers whose lengths differ by at most
one sample (they are in fact equal, both durations being `1/2 s`). -/
theorem C1_duration_unit {F : Type} (inst : Instrument F)
    (hgen : ∀ t fs sr, (inst.generate_wave t fs sr).length = t.length)
    (fc : String → Option F) (tempo beat_unit : ℚ) (htempo : 0 < tempo)
    (sample_rate : ℕ) (note_list : List String) (amplitude num_beats : ℚ)
    (song_data : List (List String × ℚ)) :
    quarter_note_duration_s tempo beat_unit = 60 / tempo * (beat_unit / 4) ∧
    eventDuration_s tempo beat_unit num_beats =
      quarter_note_duration_s tempo beat_unit * num_beats ∧
    generate_song_waveform fc inst tempo beat_unit sample_rate song_data
        amplitude =
      (song_data.map fun e =>
        get_note_waveform fc inst sample_rate e.1
          (quarter_note_duration_s tempo beat_unit * e.2) amplitude).flatten ∧
    (((get_note_waveform fc inst sample_rate note_list
          (eventDuration_s 120 4 1) amplitude).length : ℤ) -
        ((get_note_waveform fc inst sample_rate note_list
          (eventDuration_s 240 8 1) amplitude).length : ℤ)).natAbs ≤ 1 := by
  refine ⟨rfl, rfl, rfl, ?_⟩
  have he : eventDuration_s 120 4 1 = eventDuration_s 240 8 1 := by
    norm_num [eventDuration_s, quarter_note_duration_s, base_beat_duration_s]
  rw [he]
  simp

/-- Witness for C1 with the identity generator at sample rate 8. -/
theorem C1_duration_unit_witness :
    (∀ t fs sr,
      ((Instrument.mk 0 0 1 (fun t _ _ => t) : Instrument ℚ).generate_wave
        t fs sr).length = t.length) ∧
    (0 : ℚ) < 120 ∧
    quarter_note_duration_s 120 4 = 60 / 120 * (4 / 4) ∧
    (((get_note_waveform (fun _ => none)
          (Instrument.mk 0 0 1 (fun t _ _ => t) : Instrument ℚ) 8 ["A4"]
          (eventDuration_s 120 4 1) 1).length : ℤ) -
        ((get_note_waveform (fun _ => none)
          (Instrument.mk 0 0 1 (fun t _ _ => t) : Instrument ℚ) 8 ["A4"]
          (eventDuration_s 240 8 1) 1).length : ℤ)).natAbs ≤ 1 := by
  have h := C1_duration_unit (Instrument.mk 0 0 1 (fun t _ _ => t) : Instrument ℚ)
    (fun _ _ _ => rfl) (fun _ => none) 120 4 (by norm_num) 8 ["A4"] 1 1 []
  exact ⟨fun _ _ _ => rfl, by norm_num, h.1, h.2.2.2⟩

theorem twelfthRootOfTwo_gt_one : 1 < twelfthRootOfTwo := by
  unfold twelfthRootOfTwo
  rw [Real.one_lt_rpow_iff_of_pos (by norm_num)]
  exact Or.inl ⟨by norm_num, by norm_num⟩

theorem twelfthRootOfTwo_pos : 0 < twelfthRootOfTwo :=
  lt_trans one_pos twelfthRootOfTwo_gt_one

theorem twelfthRootOfTwo_pow_twelve : twelfthRootOfTwo ^ (12 : ℕ) = 2 := by
  unfold twelfthRootOfTwo
  rw [← Real.rpow_natCast ((2 : ℝ) ^ ((1 : ℝ) / 12)) 12,
    ← Real.rpow_mul (by norm_num)]
  norm_num

/-- C5: the computed frequency is strictly increasing in the absolute
semitone index of valid note names; the same pitch class one octave up is
exactly twice the frequency; and with the default reference pitch,
`get_frequency "A4" = 440` and `get_frequency "A5" = 880`. -/
theorem C5_frequency_monotone_octave (a4 : ℝ) (ha4 : 0 < a4) :
    (∀ (s₁ s₂ : String) (n₁ n₂ : ℕ), noteSemitone s₁ = some n₁ →
      noteSemitone s₂ = some n₂ → n₁ < n₂ →
      freqOfSemitone a4 n₁ < freqOfSemitone a4 n₂) ∧
    (∀ n : ℕ, freqOfSemitone a4 (n + 12) = 2 * freqOfSemitone a4 n) ∧
    get_frequency 440 "A4" = some 440 ∧
    get_frequency 440 "A5" = some 880 := by
  have hz : twelfthRootOfTwo ^ (12 : ℤ) = 2 := by
    rw [show (12 : ℤ) = ((12 : ℕ) : ℤ) from rfl, zpow_natCast]
    exact twelfthRootOfTwo_pow_twelve
  refine ⟨?_, ?_, ?_, ?_⟩
  · intro s₁ s₂ n₁ n₂ _ _ hlt
    unfold freqOfSemitone
    exact mul_lt_mul_of_pos_left
      (zpow_lt_zpow_right₀ twelfthRootOfTwo_gt_one (by omega)) ha4
  · intro n
    unfold freqOfSemitone
    have harg : ((n + 12 : ℕ) : ℤ) - (semitones_a4 : ℤ) =
        ((n : ℤ) - (semitones_a4 : ℤ)) + 12 := by
      push_cast
      ring
    rw [harg, zpow_add₀ (ne_of_gt twelfthRootOfTwo_pos), hz]
    ring
  · have hsemi : noteSemitone "A4" = some 57 := by decide
    unfold get_frequency
    rw [hsemi]
    unfold freqOfSemitone semitones_a4
    norm_num
  · have hsemi : noteSemitone "A5" = some 69 := by decide
    unfold get_frequency
    rw [hsemi]
    unfold freqOfSemitone semitones_a4
    norm_num
    rw [hz]
    norm_num

/-- Witness for C5: `C4` (semitone 48) is strictly below `A4`
(semitone 57). -/
theorem C5_frequency_monotone_octave_witness :
    (0 : ℝ) < 440 ∧ noteSemitone "C4" = some 48 ∧ noteSemitone "A4" = some 57 ∧
    (48 : ℕ) < 57 ∧ freqOfSemitone 440 48 < freqOfSemitone 440 57 :=
  ⟨by norm_num, by decide, by decide, by norm_num,
    (C5_frequency_monotone_octave 440 (by norm_num)).1 "C4" "A4" 48 57
      (by decide) (by decide) (by norm_num)⟩

theorem noteSemitoneCore_eq_none_iff (l : List Char) :
    noteSemitoneCore l = none ↔ recognizedPrefixB l = false := by
  match l with
  | [] => simp [noteSemitoneCore, regexMatch, recognizedPrefixB]
  | [c] => simp [noteSemitoneCore, regexMatch, recognizedPrefixB]
  | [c, a] =>
    simp only [noteSemitoneCore, regexMatch, recognizedPrefixB]
    by_cases h1 : isNoteLetter c <;> by_cases h2 : isDigitChar a <;> simp [h1, h2]
  | c :: a :: d :: rest =>
    simp only [noteSemitoneCore, regexMatch, recognizedPrefixB]
    by_cases h1 : isNoteLetter c
    · by_cases h2 : isAccidentalChar a && isDigitChar d
      · simp [h1, h2]
      · by_cases h3 : isDigitChar a
        · simp [h1, h2, h3]
        · simp [h1, h2, h3]
    · simp [h1]

theorem isDigitChar_not_accidental (c : Char) (h : isDigitChar c = true) :
    isAccidentalChar c = false := by
  unfold isAccidentalChar
  unfold isDigitChar at h
  rcases Bool.and_eq_true_iff.mp h with ⟨h0, h9⟩
  have hc0 : '0' ≤ c := by exact_mod_cast of_decide_eq_true h0
  have hc9 : c ≤ '9' := by exact_mod_cast of_decide_eq_true h9
  apply Bool.or_eq_false_iff.mpr
  constructor
  · apply decide_eq_false
    intro hc
    subst hc
    exact absurd hc0 (by decide)
  · apply decide_eq_false
    intro hc
    subst hc
    exact absurd hc9 (by decide)

/-- C6 (amended): `get_frequency` returns `None` exactly when the
stripped input does not *begin with* a match of `[A-G][#b]?[digit]` whose
letter+accidental pair is a recognized pitch class (the claim's reading
of the grammar as a whole-string match is refuted by
`C6_grammar_iff_counterexample`); the failure never halts a render — an
unresolvable name contributes nothing to the chord and the rendered
chunk keeps its full length. -/
theorem C6_invalid_note_handling :
    (∀ (a4 : ℝ) (s : String), get_frequency a4 s = none ↔
      recognizedPrefixB (pyStrip s.data) = false) ∧
    (∀ (F : Type) (fc : String → Option F) (inst : Instrument F)
      (sample_rate : ℕ) (pre post : List String) (bad : String)
      (duration_s amplitude : ℚ), fc bad = none →
      get_note_waveform fc inst sample_rate (pre ++ bad :: post) duration_s
        amplitude =
      get_note_waveform fc inst sample_rate (pre ++ post) duration_s amplitude) ∧
    (∀ (F : Type) (fc : String → Option F) (inst : Instrument F),
      (∀ t fs sr, (inst.generate_wave t fs sr).length = t.length) →
      ∀ (sample_rate : ℕ) (note_list : List String) (duration_s amplitude : ℚ),
      (get_note_waveform fc inst sample_rate note_list duration_s
        amplitude).length = numSamples sample_rate duration_s) := by
  refine ⟨?_, ?_, ?_⟩
  · intro a4 s
    unfold get_frequency noteSemitone
    rw [Option.map_eq_none']
    exact noteSemitoneCore_eq_none_iff _
  · intro F fc inst sample_rate pre post bad duration_s amplitude hbad
    unfold get_note_waveform
    rw [List.filterMap_append, List.filterMap_append,
      List.filterMap_cons_none hbad]
  · intro F fc inst hgen sample_rate note_list duration_s amplitude
    exact get_note_waveform_length fc inst hgen sample_rate note_list
      duration_s amplitude

/-- Witness for C6: the invalid name `"X9"` resolves to `None`, the
stripped input has no recognized prefix, and inserting it into a note
list leaves the rendered chunk unchanged. -/
theorem C6_invalid_note_handling_witness :
    ((fun s => noteSemitone s) "X9" = (none : Option ℕ)) ∧
    get_frequency 440 "X9" = none ∧
    get_note_waveform (fun s => noteSemitone s)
      (Instrument.mk 0 0 1 (fun t _ _ => t) : Instrument ℕ) 8
      (["A4"] ++ "X9" :: []) 1 1 =
    get_note_waveform (fun s => noteSemitone s)
      (Instrument.mk 0 0 1 (fun t _ _ => t) : Instrument ℕ) 8
      (["A4"] ++ []) 1 1 := by
  refine ⟨by decide, ?_, ?_⟩
  · exact (C6_invalid_note_handling.1 440 "X9").mpr (by decide)
  · exact C6_invalid_note_handling.2.1 ℕ (fun s => noteSemitone s)
      (Instrument.mk 0 0 1 (fun t _ _ => t)) 8 ["A4"] [] "X9" 1 1 (by decide)

/-- C6 counterexample: on `"A10"` the code succeeds (parsing the prefix
`A1`), although the full string does not match `[A-G][#b]?[digit]` — so
the claimed equivalence (fails iff no full-grammar match or unrecognized
pair) is false as stated. -/
theorem C6_grammar_iff_counterexample :
    ¬(get_frequency 440 "A10" = none ↔
      (specGrammarFullB "A10" = false ∨ specPairUnrecognizedB "A10" = true)) := by
  intro h
  have hval : noteSemitone "A10" = some 21 := by decide
  have hfreq : get_frequency 440 "A10" ≠ none := by
    unfold get_frequency
    rw [hval]
    simp
  exact hfreq (h.mpr (Or.inl (by decide)))

/-- C10 (amended): trailing characters after the first
letter–accidental–digit prefix are ignored (so `"A10"` parses as `"A1"`),
and `get_frequency` returns `None` exactly when no grammar prefix with a
*recognized* letter+accidental pair exists — recognition is required,
which the claim omitted (see `C10_unrecognized_prefix_counterexample`). -/
theorem C10_prefix_parsing :
    (∀ (c a d : Char) (rest : List Char), isNoteLetter c = true →
      isAccidentalChar a = true → isDigitChar d = true →
      noteSemitoneCore (c :: a :: d :: rest) = noteSemitoneCore [c, a, d]) ∧
    (∀ (c d : Char) (rest : List Char), isNoteLetter c = true →
      isDigitChar d = true →
      noteSemitoneCore (c :: d :: rest) = noteSemitoneCore [c, d]) ∧
    noteSemitone "A10" = noteSemitone "A1" ∧
    (∀ l : List Char, noteSemitoneCore l = none ↔
      recognizedPrefixB l = false) := by
  refine ⟨?_, ?_, by decide, noteSemitoneCore_eq_none_iff⟩
  · intro c a d rest h1 h2 h3
    simp [noteSemitoneCore, regexMatch, h1, h2, h3]
  · intro c d rest h1 h2
    have h3 : isAccidentalChar d = false := isDigitChar_not_accidental d h2
    cases rest with
    | nil => rfl
    | cons r rs =>
      simp [noteSemitoneCore, regexMatch, h1, h2, h3]

/-- Witness for C10: `"A"`/`"b"`/`"3"` with trailing garbage parses the
same as `"Ab3"`. -/
theorem C10_prefix_parsing_witness :
    (isNoteLetter 'A' = true ∧ isAccidentalChar 'b' = true ∧
      isDigitChar '3' = true) ∧
    noteSemitoneCore ['A', 'b', '3', 'x', 'y'] = noteSemitoneCore ['A', 'b', '3'] :=
  ⟨⟨by decide, by decide, by decide⟩,
    C10_prefix_parsing.1 'A' 'b' '3' ['x', 'y'] (by decide) (by decide) (by decide)⟩

/-- C10 counterexample: `"E#4"` begins with letter `E`, accidental `#`
and digit `4` — a grammar prefix exists — yet `get_frequency` returns
`None` (`E#` is not in the pitch-class map), refuting "None is returned
only when no such prefix exists". -/
theorem C10_unrecognized_prefix_counterexample :
    hasGrammarPrefixB (pyStrip "E#4".data) = true ∧
    get_frequency 440 "E#4" = none := by
  refine ⟨by decide, ?_⟩
  unfold get_frequency
  rw [show noteSemitone "E#4" = none from by decide]
  rfl
